import Mathlib

/-!
Verification development for the SMH crossword downloader (`src/main.py`).

Strings from the Python source are modelled as `List Char`; calendar dates
produced by the date resolver are modelled as proleptic-Gregorian ordinals
(`Nat`, days since 0001-01-01, day 1 = 0001-01-01), exactly Python's
`date.toordinal`.  Third-party library calls (`dateutil.parser.parse`,
`html2text`, `emoji.demojize`, `unidecode`, the `unicode_escape` codec)
are modelled as Lean functions faithful to their behaviour on the input
domain the program exercises; each such model's doc comment states what is
modelled.
-/

deriving instance DecidableEq for Except

namespace Decryptic

/-! ## Calendar arithmetic (Python `datetime.date`) -/

/-- Gregorian leap-year test, as in Python's `calendar.isleap`. -/
def isLeap (y : Nat) : Bool :=
  (y % 4 == 0 && y % 100 != 0) || y % 400 == 0

/-- Number of days in month `m` of year `y` (months are 1-based). -/
def daysInMonth (y m : Nat) : Nat :=
  if m = 1 then 31
  else if m = 2 then (if isLeap y then 29 else 28)
  else if m = 3 then 31
  else if m = 4 then 30
  else if m = 5 then 31
  else if m = 6 then 30
  else if m = 7 then 31
  else if m = 8 then 31
  else if m = 9 then 30
  else if m = 10 then 31
  else if m = 11 then 30
  else if m = 12 then 31
  else 0

/-- Days in year `y` strictly before month `m`. -/
def daysBeforeMonth (y m : Nat) : Nat :=
  match m with
  | 0 => 0
  | n + 1 => daysBeforeMonth y n + (if n = 0 then 0 else daysInMonth y n)

/-- Python's `date(y, m, d).toordinal()`: days since 0001-01-01, with
0001-01-01 having ordinal 1. -/
def toordinal (y m d : Nat) : Nat :=
  365 * (y - 1) + (y - 1) / 4 - (y - 1) / 100 + (y - 1) / 400
    + daysBeforeMonth y m + d

/-- Validity of a calendar day/month combination in year `y`
(the check `datetime(...)` performs when `dateutil` builds the result). -/
def validDate (y m d : Nat) : Bool :=
  1 ≤ m && m ≤ 12 && 1 ≤ d && d ≤ daysInMonth y m

/-! ## String helpers (Python `str` operations on `List Char`) -/

/-- Characters removed by Python's `str.strip()`: exactly those for which
`str.isspace()` is true — the six `string.whitespace` characters, the ASCII
separators U+001C–U+001F, and the Unicode whitespace code points. -/
def isPyWhitespace (c : Char) : Bool :=
  c = ' ' || c = '\t' || c = '\n' || c = '\x0d' || c = '\x0b' || c = '\x0c'
    || c = '\x1c' || c = '\x1d' || c = '\x1e' || c = '\x1f'
    || c = '\x85' || c = '\xa0' || c.toNat = 0x1680
    || (0x2000 ≤ c.toNat && c.toNat ≤ 0x200a)
    || c.toNat = 0x2028 || c.toNat = 0x2029 || c.toNat = 0x202f
    || c.toNat = 0x205f || c.toNat = 0x3000

/-- Python `str.strip()`: drop leading and trailing whitespace. -/
def pyStrip (s : List Char) : List Char :=
  ((s.dropWhile isPyWhitespace).reverse.dropWhile isPyWhitespace).reverse

/-- Python `str.split(sep, 1)` for a one-character separator, restricted to
strings that do contain the separator: the part before the first occurrence
and everything after it. -/
def splitFirst (sep : Char) : List Char → List Char × List Char
  | [] => ([], [])
  | c :: t =>
    if c = sep then ([], t)
    else
      let p := splitFirst sep t
      (c :: p.1, p.2)

/-- Python `str.split(sep)` for a one-character separator. -/
def splitAll (sep : Char) : List Char → List (List Char)
  | [] => [[]]
  | c :: t =>
    let p := splitAll sep t
    if c = sep then [] :: p
    else (c :: p.headI) :: p.tail

/-- Value of a decimal-digit string (`int("03") = 3`); `none` if the string
is empty or contains a non-digit. -/
def digitsToNat (s : List Char) : Option Nat :=
  if s = [] then none
  else s.foldlM (fun acc c => if c.isDigit then some (acc * 10 + (c.toNat - 48)) else none) 0

/-! ## Date resolution (`_parse_single_date`, `_resolve_dates`) -/

/-- Modelled from `dateutil.parser.parse(raw, dayfirst=day_first, yearfirst=False)`
restricted to the numeric tokens `p/q/y` with a four-digit year that the
program's date options exercise.  `dayfirst` selects which of the first two
fields is preferred as the day; when the preferred reading is not a valid
calendar date (month out of range), `dateutil` falls back to the other
reading.  Tokens of any other shape are outside the modelled domain and
count as a parse failure.  The result is the parsed date's ordinal
(timezone-naive, so the `astimezone` branch of `_parse_single_date` does
not fire on this domain). -/
def parse_single_date (raw : List Char) (day_first : Bool) : Option Nat :=
  match splitAll '/' (pyStrip raw) with
  | [a, b, c] =>
    match digitsToNat a, digitsToNat b, digitsToNat c with
    | some p, some q, some y =>
      if y < 1000 || 9999 < y then none
      else if day_first then
        if validDate y q p then some (toordinal y q p)
        else if validDate y p q then some (toordinal y p q)
        else none
      else
        if validDate y p q then some (toordinal y p q)
        else if validDate y q p then some (toordinal y q p)
        else none
    | _, _, _ => none
  | _ => none

/-- Failure modes of `_resolve_dates`: `badParameter` models
`typer.BadParameter`, `parseError` models an uncaught exception from
`dateutil` (a `ParserError` is not an `AssertionError`, so the
`except AssertionError` clause does not catch it). -/
inductive ResolveErr where
  | badParameter
  | parseError
deriving DecidableEq

/-- Inclusive run of consecutive ordinals, `[start_date + timedelta(days=o) for o in range(span)]`
with `span = (end_date - start_date).days + 1`. -/
def dateRange (s e : Nat) : List Nat :=
  (List.range (e - s + 1)).map (fun o => s + o)

/-- Shallow embedding of `_resolve_dates`.  `today` stands for
`datetime.now(SYDNEY_TZ).date()` in the empty-token branch. -/
def resolve_dates (today : Nat) (date_token : List Char) : Except ResolveErr (List Nat) :=
  if date_token = [] then .ok [today]
  else if ':' ∈ date_token then
    let p := splitFirst ':' date_token
    let start_raw := pyStrip p.1
    let end_raw := pyStrip p.2
    if start_raw = [] || end_raw = [] then .error .badParameter
    else
      match parse_single_date start_raw true, parse_single_date end_raw true with
      | some sd, some ed =>
        if sd ≤ ed then .ok (dateRange sd ed)
        else
          match parse_single_date start_raw false, parse_single_date end_raw false with
          | some sd', some ed' =>
            if ed' < sd' then .error .badParameter
            else .ok (dateRange sd' ed')
          | _, _ => .error .parseError
      | _, _ => .error .parseError
  else
    match parse_single_date date_token true with
    | some d => .ok [d]
    | none => .error .parseError

/-! ## Text sanitisation (`_sanitize_for_latin1` and the libraries it calls) -/

/-- One entry of the global `conversion_log` list: `(original, sanitized, context)`. -/
structure ConvRec where
  original : List Char
  sanitized : List Char
  context : List Char
deriving DecidableEq

/-- Modelled from the spec: the emoji character set used by `emoji.demojize`.
The modelled set is the main emoji blocks; for the claims only the fact that
no ASCII character is an emoji is load-bearing. -/
def isEmojiChar (c : Char) : Bool :=
  (0x1F000 ≤ c.toNat && c.toNat ≤ 0x1FAFF) || (0x2600 ≤ c.toNat && c.toNat ≤ 0x27BF)

/-- Modelled from the spec: `emoji.demojize` replaces each emoji character
with a textual name-based representation delimited by colons and leaves
every other character alone.  The name itself is modelled by the decimal
code point, a stand-in for the emoji's registered name. -/
def demojizeModel (s : List Char) : List Char :=
  s.flatMap (fun c =>
    if isEmojiChar c then ':' :: (Nat.toDigits 10 c.toNat ++ [':']) else [c])

/-- Modelled from the spec: `unidecode` leaves ASCII (code points below 128)
unchanged and transliterates other characters to their nearest ASCII
equivalent, dropping characters it has no transliteration for.  A few
sample transliterations stand in for the full table. -/
def unidecodeChar (c : Char) : List Char :=
  if c.toNat < 128 then [c]
  else if c = 'é' ∨ c = 'è' ∨ c = 'ê' then ['e']
  else if c = 'á' ∨ c = 'à' then ['a']
  else if c.toNat = 0x2019 then ['\'']
  else []

/-- Modelled from the spec: pointwise extension of `unidecodeChar`. -/
def unidecodeModel (s : List Char) : List Char := s.flatMap unidecodeChar

/-- Modelled from the spec: `html2text(text, bodywidth=0)` decodes HTML
markup and entities into plain readable text without wrapping lines: tags
are dropped, the basic entities are decoded, and text containing neither a
tag opener `<` nor an entity opener `&` passes through unchanged.  The
recursion carries an explicit fuel argument (the input length) so that it
is structural; the fuel never runs out because every step consumes at
least one character. -/
def html2textGo : Nat → List Char → List Char
  | 0, _ => []
  | _ + 1, [] => []
  | fuel + 1, c :: t =>
    if c = '<' then html2textGo fuel ((t.dropWhile (fun x => x != '>')).drop 1)
    else if c = '&' then
      if t.take 4 = "amp;".toList then '&' :: html2textGo fuel (t.drop 4)
      else if t.take 3 = "lt;".toList then '<' :: html2textGo fuel (t.drop 3)
      else if t.take 3 = "gt;".toList then '>' :: html2textGo fuel (t.drop 3)
      else c :: html2textGo fuel t
    else c :: html2textGo fuel t

/-- Modelled from the spec: entry point of the `html2text` model. -/
def html2textModel (s : List Char) : List Char := html2textGo s.length s

/-- Shallow embedding of `_sanitize_for_latin1`, threading the global
`conversion_log` explicitly.  The empty list models both Python `None` and
`""` (both falsy, both returned unchanged). -/
def sanitize_for_latin1 (text : List Char) (context : List Char) (log : List ConvRec) :
    List Char × List ConvRec :=
  if text = [] then (text, log)
  else
    let sanitized := pyStrip (unidecodeModel (demojizeModel (html2textModel text)))
    if sanitized ≠ text then (sanitized, log ++ [⟨text, sanitized, context⟩])
    else (sanitized, log)

/-! ## The crossword record and `to_puzzle` -/

/-- The `CrosswordType` enum. -/
inductive CrosswordType where
  | cryptic
  | mini
  | quick
deriving DecidableEq

/-- The enum's string value. -/
def CrosswordType.value : CrosswordType → List Char
  | .cryptic => "cryptic".toList
  | .mini => "mini".toList
  | .quick => "quick".toList

/-- Python `str.upper()` (all strings involved are ASCII). -/
def pyUpper (s : List Char) : List Char := s.map Char.toUpper

/-- Python `str.capitalize()`: first character upper-cased, the rest
lower-cased. -/
def pyCapitalize : List Char → List Char
  | [] => []
  | c :: t => c.toUpper :: t.map Char.toLower

/-- A calendar date as year/month/day, the request's `self.date`. -/
structure YMD where
  year : Nat
  month : Nat
  day : Nat
deriving DecidableEq

/-- Decimal digits of a number. -/
def natChars (n : Nat) : List Char := Nat.toDigits 10 n

/-- Decimal digits left-padded with zeros to width `w`. -/
def padNat (w n : Nat) : List Char :=
  List.replicate (w - (natChars n).length) '0' ++ natChars n

/-- Python `date.isoformat()`: `YYYY-MM-DD`. -/
def isoformat (d : YMD) : List Char :=
  padNat 4 d.year ++ '-' :: (padNat 2 d.month ++ '-' :: padNat 2 d.day)

/-- Weekday names indexed so that ordinal 1 (0001-01-01, a Monday) maps to
"Monday", as in Python's `date.weekday`. -/
def weekdayName (ordinal : Nat) : List Char :=
  (["Monday", "Tuesday", "Wednesday", "Thursday", "Friday", "Saturday",
    "Sunday"].map String.toList).getD ((ordinal - 1) % 7) []

/-- English month names, 1-based. -/
def monthName (m : Nat) : List Char :=
  (["January", "February", "March", "April", "May", "June", "July",
    "August", "September", "October", "November", "December"].map
    String.toList).getD (m - 1) []

/-- Python `self.date.strftime("%A, %B %d, %Y")`. -/
def readableDate (d : YMD) : List Char :=
  weekdayName (toordinal d.year d.month d.day) ++ ", ".toList
    ++ monthName d.month ++ [' '] ++ padNat 2 d.day ++ ", ".toList
    ++ natChars d.year

/-- One clue record, `{"position": ..., "question": ...}`. -/
structure ClueRecord where
  position : Nat
  question : List Char
deriving DecidableEq

/-- The parsed `crossword_data` dictionary, with the fields `to_puzzle`
reads; `across` and `down` are `crossword_data["clues"]["across"]` and
`["down"]`, and the two optional free-text fields default to the empty
string, matching `.get(..., "")`. -/
structure RawRecord where
  date : List Char
  type : List Char
  author : List Char
  grid : List (List Char)
  across : List ClueRecord
  down : List ClueRecord
  specialInstructions : List Char
  summary : List Char
deriving DecidableEq

/-- The `Crossword` object's state when `to_puzzle` runs.  `crossword_data
= none` models the attribute never having been assigned (the `hasattr`
check fails: `extract_crossword` assigns it only immediately before
returning successfully); `some none` models a successful extraction whose
`data.get("crosswords", {}).get("crossword")` returned `None`; `some (some
rec)` is a usable record. -/
structure Crossword where
  crossword_type : CrosswordType
  date : YMD
  crossword_data : Option (Option RawRecord)
deriving DecidableEq

/-- Exceptions `to_puzzle` can raise: the explicit `RuntimeError` when the
attribute is missing, a `TypeError` from subscripting `None`, a bare
`AssertionError` from either of the two `assert` statements, and an
`IndexError` from `grid_data[0]` on an empty grid. -/
inductive BuildErr where
  | noData
  | typeError
  | assertionError
  | indexError
deriving DecidableEq

/-- One step of the stable insertion sort: place `c` before the first
element whose position is not smaller, keeping earlier equal-position
elements in front, exactly the ordering Python's stable `sorted(...,
key=lambda x: x["position"])` produces. -/
def insertClue (c : ClueRecord) : List ClueRecord → List ClueRecord
  | [] => [c]
  | d :: ds => if d.position < c.position then d :: insertClue c ds else c :: d :: ds

/-- Stable sort by `position`, extensionally equal to Python's stable
`sorted` with the position key. -/
def sortClues : List ClueRecord → List ClueRecord
  | [] => []
  | c :: cs => insertClue c (sortClues cs)

/-- Sanitise the questions of the sorted clue list in order, threading the
conversion log, as the list comprehension on lines 154-157 does. -/
def sanitizeClues (ctx : List Char) : List ClueRecord → List ConvRec →
    List (List Char) × List ConvRec
  | [], log => ([], log)
  | c :: cs, log =>
    let p := sanitize_for_latin1 c.question ctx log
    let r := sanitizeClues ctx cs p.2
    (p.1 :: r.1, r.2)

/-- The puzzle model handed to the external `.puz` writer. -/
structure Puzzle where
  copyright : List Char
  title : List Char
  author : List Char
  width : Nat
  height : Nat
  solution : List Char
  fill : List Char
  clues : List (List Char)
  notes : List Char
deriving DecidableEq

/-- Shallow embedding of `Crossword.to_puzzle`, threading the global
`conversion_log`. -/
def to_puzzle (cw : Crossword) (log : List ConvRec) :
    Except BuildErr (Puzzle × List ConvRec) :=
  match cw.crossword_data with
  | none => .error .noData
  | some none => .error .typeError
  | some (some rec) =>
    if rec.date ≠ isoformat cw.date then .error .assertionError
    else if pyUpper cw.crossword_type.value ≠ rec.type then .error .assertionError
    else
      let title := pyCapitalize rec.type ++ ", ".toList ++ readableDate cw.date
      match rec.grid with
      | [] => .error .indexError
      | row0 :: _ =>
        let solution := rec.grid.flatten
        let p1 := sanitizeClues ("clue ".toList ++ title)
          (sortClues (rec.across ++ rec.down)) log
        let notes0 := List.intercalate ['\n']
          ([rec.specialInstructions, rec.summary].filter (fun s => s ≠ []))
        let p2 := sanitize_for_latin1 notes0 ("notes ".toList ++ title) p1.2
        .ok ({ copyright := "The Sydney Morning Herald".toList,
               title := title,
               author := "Created by ".toList ++ rec.author,
               width := row0.length,
               height := rec.grid.length,
               solution := solution,
               fill := solution.map (fun c => if c = '.' then '.' else '-'),
               clues := p1.1,
               notes := p2.1 }, p2.2)

/-! ## The conversion-log writer (`_write_conversion_log`) -/

/-- Modelled from the spec: Python `repr` of a string, for log lines.  The
quoting is modelled for strings without quote or backslash characters,
which is all the log-writer claims inspect. -/
def pyRepr (s : List Char) : List Char := '\'' :: (s ++ ['\''])

/-- One log line per conversion record:
`  [context] repr(original) → repr(sanitized)`. -/
def recordLine (r : ConvRec) : List Char :=
  "  [".toList ++ r.context ++ "] ".toList ++ pyRepr r.original
    ++ " → ".toList ++ pyRepr r.sanitized

/-- The per-flush header line `=== Conversion Log [timestamp] ===`. -/
def headerLine (ts : List Char) : List Char :=
  "=== Conversion Log [".toList ++ ts ++ "] ===".toList

/-- State touched by `_write_conversion_log`: the in-memory accumulator and
the lines of the `encoding-conversions.log` file.  The file is modelled as
its list of lines; `f.write("\n=== ... ===\n")` contributes an empty line
and the header line. -/
structure LogState where
  conversion_log : List ConvRec
  fileLines : List (List Char)
deriving DecidableEq

/-- Shallow embedding of `_write_conversion_log`; `ts` is
`datetime.now().isoformat()`. -/
def write_conversion_log (ts : List Char) (st : LogState) : LogState :=
  if st.conversion_log = [] then st
  else
    { conversion_log := [],
      fileLines := st.fileLines
        ++ [] :: headerLine ts :: st.conversion_log.map recordLine }

/-! ## The extractor's unescaping step (`extract_crossword`, line 113) -/

/-- UTF-8 encoding of one code point, as in `str.encode("utf-8")`. -/
def utf8EncodeChar (c : Nat) : List Nat :=
  if c < 0x80 then [c]
  else if c < 0x800 then [0xC0 + c / 64, 0x80 + c % 64]
  else if c < 0x10000 then [0xE0 + c / 4096, 0x80 + c / 64 % 64, 0x80 + c % 64]
  else [0xF0 + c / 262144, 0x80 + c / 4096 % 64, 0x80 + c / 64 % 64, 0x80 + c % 64]

/-- UTF-8 encoding of a string of code points. -/
def utf8Encode (s : List Nat) : List Nat := s.flatMap utf8EncodeChar

/-- Value of one hexadecimal digit, upper or lower case. -/
def hexVal (c : Nat) : Option Nat :=
  if 48 ≤ c ∧ c ≤ 57 then some (c - 48)
  else if 97 ≤ c ∧ c ≤ 102 then some (c - 87)
  else if 65 ≤ c ∧ c ≤ 70 then some (c - 55)
  else none

/-- Lower-case hexadecimal digit for a value below 16. -/
def hexDigit (n : Nat) : Nat := if n < 10 then 48 + n else 87 + n

/-- Four-digit hexadecimal rendering of a code point below 0x10000. -/
def toHex4 (n : Nat) : List Nat :=
  [hexDigit (n / 4096 % 16), hexDigit (n / 256 % 16), hexDigit (n / 16 % 16),
   hexDigit (n % 16)]

/-- Modelled from Python's `unicode_escape` codec
(`bytes.decode("unicode_escape")`), restricted to the escape forms arising
here: every non-backslash byte becomes the code point of the Latin-1
character it denotes; `\uXXXX` becomes code point XXXX; `\"`, `\'`, `\\`,
`\n`, `\t`, `\r` become the escaped character; any other backslash escape
is kept verbatim (backslash plus following byte), as the codec does for
unrecognised escapes; a trailing backslash or malformed `\uXXXX` is a
decode error. -/
def uDecode : List Nat → Option (List Nat)
  | [] => some []
  | b :: rest =>
    if b = 92 then
      match rest with
      | [] => none
      | e :: t =>
        if e = 117 then
          match t with
          | h3 :: h2 :: h1 :: h0 :: t2 =>
            match hexVal h3, hexVal h2, hexVal h1, hexVal h0 with
            | some x3, some x2, some x1, some x0 =>
              (uDecode t2).map (fun r => (4096 * x3 + 256 * x2 + 16 * x1 + x0) :: r)
            | _, _, _, _ => none
          | _ => none
        else if e = 34 then (uDecode t).map (fun r => 34 :: r)
        else if e = 39 then (uDecode t).map (fun r => 39 :: r)
        else if e = 92 then (uDecode t).map (fun r => 92 :: r)
        else if e = 110 then (uDecode t).map (fun r => 10 :: r)
        else if e = 116 then (uDecode t).map (fun r => 9 :: r)
        else if e = 114 then (uDecode t).map (fun r => 13 :: r)
        else (uDecode t).map (fun r => 92 :: e :: r)
    else (uDecode rest).map (fun r => b :: r)

/-- The unescaping step on line 113 of the source,
`json_string.encode("utf-8").decode("unicode_escape")`, acting on code
points. -/
def unescapeStep (s : List Nat) : Option (List Nat) := uDecode (utf8Encode s)

/-- One character of the encoding the claim describes: standard JS string
escaping with `\"` for quotes, `\\` for backslashes, `\uXXXX` for control
characters, and every other character — including non-ASCII ones — left
literal. -/
def jsEscapeLiteralChar (c : Nat) : List Nat :=
  if c = 34 then [92, 34]
  else if c = 92 then [92, 92]
  else if c < 32 then 92 :: 117 :: toHex4 c
  else [c]

/-- Encoder following the claim's words, character by character. -/
def jsEscapeLiteral (s : List Nat) : List Nat := s.flatMap jsEscapeLiteralChar

/-- One character of the encoding for the amended claim: as
`jsEscapeLiteralChar`, but every non-printable or non-ASCII code point is
written as a `\uXXXX` escape, so the escaped text is pure ASCII. -/
def jsEscapeAsciiChar (c : Nat) : List Nat :=
  if c = 34 then [92, 34]
  else if c = 92 then [92, 92]
  else if 32 ≤ c ∧ c < 127 then [c]
  else 92 :: 117 :: toHex4 c

/-- Encoder for the amended claim, character by character. -/
def jsEscapeAscii (s : List Nat) : List Nat := s.flatMap jsEscapeAsciiChar

/-! ## Helper lemmas -/

/-- Splitting at the first separator recovers the two halves when the left
half is separator-free. -/
theorem splitFirst_append (s e : List Char) (hc : ':' ∉ s) :
    splitFirst ':' (s ++ ':' :: e) = (s, e) := by
  induction s with
  | nil => simp [splitFirst]
  | cons c t ih =>
    have hcne : c ≠ ':' := fun h => hc (h ▸ List.mem_cons_self c t)
    have ht := ih (fun h => hc (List.mem_cons_of_mem c h))
    simp only [List.cons_append, splitFirst, if_neg hcne]
    simp_all

/-- The empty string never parses as a date. -/
theorem parse_single_date_nil (df : Bool) : parse_single_date [] df = none := rfl

/-- The modelled `dateutil` parser accepts exactly the same strings under
either day/month precedence: the flag only selects which valid reading is
preferred. -/
theorem parse_single_date_none_iff (raw : List Char) :
    parse_single_date raw true = none ↔ parse_single_date raw false = none := by
  unfold parse_single_date
  split
  · split
    · split
      · simp
      · split_ifs <;> simp
    all_goals simp
  all_goals simp

/-! ## C7: consistent day-first range -/

/-- C7: for a range token `A:B` whose two ends both parse under day-first
precedence with `A ≤ B`, `_resolve_dates` returns exactly the consecutive
calendar dates from `A` to `B` inclusive, a sequence of length
`(B - A).days + 1`. -/
theorem resolve_range_day_first (today : Nat) (s e : List Char) (A B : Nat)
    (hc : ':' ∉ s)
    (hs : parse_single_date (pyStrip s) true = some A)
    (he : parse_single_date (pyStrip e) true = some B)
    (hAB : A ≤ B) :
    resolve_dates today (s ++ ':' :: e) = .ok (dateRange A B)
    ∧ (dateRange A B).length = (B - A) + 1 := by
  constructor
  · have hnil : s ++ ':' :: e ≠ [] := by simp
    have hmem : ':' ∈ s ++ ':' :: e := List.mem_append_right s (List.mem_cons_self ':' e)
    have hsne : pyStrip s ≠ [] := by
      intro h
      rw [h, parse_single_date_nil] at hs
      exact Option.noConfusion hs
    have hene : pyStrip e ≠ [] := by
      intro h
      rw [h, parse_single_date_nil] at he
      exact Option.noConfusion he
    unfold resolve_dates
    rw [if_neg hnil, if_pos hmem, splitFirst_append s e hc]
    simp [hsne, hene, hs, he, hAB]
  · simp [dateRange]

/-- Witness for C7 at the concrete token `01/04/2024:03/04/2024`. -/
theorem resolve_range_day_first_witness :
    resolve_dates 0 ("01/04/2024".toList ++ ':' :: "03/04/2024".toList)
      = .ok (dateRange (toordinal 2024 4 1) (toordinal 2024 4 3))
    ∧ (dateRange (toordinal 2024 4 1) (toordinal 2024 4 3)).length
        = (toordinal 2024 4 3 - toordinal 2024 4 1) + 1 :=
  resolve_range_day_first 0 _ _ _ _ (by decide) (by decide) (by decide) (by decide)

/-! ## C10: single tokens are day-first with no retry -/

/-- C10: a single (colon-free) date token is parsed with day-before-month
precedence and no month-first retry, producing a one-element sequence with
the day-first reading. -/
theorem resolve_single_day_first (today : Nat) (token : List Char) (d : Nat)
    (hc : ':' ∉ token)
    (hp : parse_single_date token true = some d) :
    resolve_dates today token = .ok [d] := by
  have hne : token ≠ [] := by
    intro h
    rw [h, parse_single_date_nil] at hp
    exact Option.noConfusion hp
  unfold resolve_dates
  rw [if_neg hne, if_neg hc, hp]

/-- Witness for C10: the ambiguous numeric token `03/04/2024` resolves to
the day-first reading, 3 April 2024. -/
theorem resolve_single_day_first_witness :
    resolve_dates 0 ("03/04/2024".toList) = .ok [toordinal 2024 4 3] :=
  resolve_single_day_first 0 _ _ (by decide) (by decide)

/-! ## C4: month-first retry for ranges -/

/-- C4: for a range token whose day-first interpretation is invalid (either
end fails to parse, or the ends parse with end before start) but whose
month-first interpretation yields `A ≤ B`, `_resolve_dates` returns the
month-first interpretation's inclusive range from `A` to `B`. -/
theorem resolve_range_month_first (today : Nat) (s e : List Char) (A B : Nat)
    (hc : ':' ∉ s)
    (hinvalid : (parse_single_date (pyStrip s) true = none
        ∨ parse_single_date (pyStrip e) true = none)
      ∨ ∃ sd ed, parse_single_date (pyStrip s) true = some sd
          ∧ parse_single_date (pyStrip e) true = some ed ∧ ed < sd)
    (hs : parse_single_date (pyStrip s) false = some A)
    (he : parse_single_date (pyStrip e) false = some B)
    (hAB : A ≤ B) :
    resolve_dates today (s ++ ':' :: e) = .ok (dateRange A B) := by
  have hnil : s ++ ':' :: e ≠ [] := by simp
  have hmem : ':' ∈ s ++ ':' :: e := List.mem_append_right s (List.mem_cons_self ':' e)
  have hsne : pyStrip s ≠ [] := by
    intro h
    rw [h, parse_single_date_nil] at hs
    exact Option.noConfusion hs
  have hene : pyStrip e ≠ [] := by
    intro h
    rw [h, parse_single_date_nil] at he
    exact Option.noConfusion he
  rcases hinvalid with hfail | ⟨sd, ed, hsd, hed, hlt⟩
  · rcases hfail with hfs | hfe
    · rw [(parse_single_date_none_iff (pyStrip s)).mp hfs] at hs
      exact Option.noConfusion hs
    · rw [(parse_single_date_none_iff (pyStrip e)).mp hfe] at he
      exact Option.noConfusion he
  · unfold resolve_dates
    rw [if_neg hnil, if_pos hmem, splitFirst_append s e hc]
    have hnotle : ¬ sd ≤ ed := by omega
    have hnotlt : ¬ B < A := by omega
    simp [hsne, hene, hsd, hed, hs, he, hnotle, hnotlt]

/-- Witness for C4 at the ambiguous range `03/10/2024:04/05/2024` (3 Oct
to 4 May is inverted day-first; 10 March to 5 April is the month-first
reading). -/
theorem resolve_range_month_first_witness :
    resolve_dates 0 ("03/10/2024".toList ++ ':' :: "04/05/2024".toList)
      = .ok (dateRange (toordinal 2024 3 10) (toordinal 2024 4 5)) :=
  resolve_range_month_first 0 _ _ _ _ (by decide)
    (Or.inr ⟨toordinal 2024 10 3, toordinal 2024 5 4, by decide, by decide, by decide⟩)
    (by decide) (by decide) (by decide)

/-! ## C6: clue ordering -/

/-- Inserting a clue yields a permutation of consing it. -/
theorem insertClue_perm (c : ClueRecord) (l : List ClueRecord) :
    (insertClue c l).Perm (c :: l) := by
  induction l with
  | nil => exact List.Perm.refl _
  | cons d ds ih =>
    by_cases h : d.position < c.position
    · rw [insertClue, if_pos h]
      exact (ih.cons d).trans (List.Perm.swap c d ds)
    · rw [insertClue, if_neg h]

/-- The stable insertion sort permutes its input. -/
theorem sortClues_perm (l : List ClueRecord) : (sortClues l).Perm l := by
  induction l with
  | nil => exact List.Perm.refl _
  | cons c cs ih =>
    exact ((insertClue_perm c (sortClues cs)).trans (ih.cons c))

/-- Inserting into a position-sorted list keeps it position-sorted. -/
theorem insertClue_pairwise (c : ClueRecord) (l : List ClueRecord)
    (h : l.Pairwise (fun a b => a.position ≤ b.position)) :
    (insertClue c l).Pairwise (fun a b => a.position ≤ b.position) := by
  induction l with
  | nil => simp [insertClue]
  | cons d ds ih =>
    rw [List.pairwise_cons] at h
    obtain ⟨hd, hds⟩ := h
    by_cases hlt : d.position < c.position
    · rw [insertClue, if_pos hlt, List.pairwise_cons]
      refine ⟨fun x hx => ?_, ih hds⟩
      rcases List.mem_cons.mp ((insertClue_perm c ds).mem_iff.mp hx) with hxc | hxds
      · exact hxc ▸ Nat.le_of_lt hlt
      · exact hd x hxds
    · rw [insertClue, if_neg hlt, List.pairwise_cons]
      refine ⟨fun x hx => ?_, List.pairwise_cons.mpr ⟨hd, hds⟩⟩
      rcases List.mem_cons.mp hx with hxd | hxds
      · exact hxd ▸ Nat.le_of_not_lt hlt
      · exact Nat.le_trans (Nat.le_of_not_lt hlt) (hd x hxds)

/-- The stable insertion sort sorts by position. -/
theorem sortClues_pairwise (l : List ClueRecord) :
    (sortClues l).Pairwise (fun a b => a.position ≤ b.position) := by
  induction l with
  | nil => simp [sortClues]
  | cons c cs ih => exact insertClue_pairwise c (sortClues cs) ih

/-- Stability of one insertion: restricting to any one position class
commutes with insertion. -/
theorem insertClue_filter (c : ClueRecord) (l : List ClueRecord) (p : Nat) :
    (insertClue c l).filter (fun x => x.position == p)
      = (c :: l).filter (fun x => x.position == p) := by
  induction l with
  | nil => rfl
  | cons d ds ih =>
    by_cases hlt : d.position < c.position
    · rw [insertClue, if_pos hlt]
      by_cases hdp : d.position = p
      · have hcp : ¬ c.position = p := by omega
        simp [List.filter_cons, hdp, hcp] at ih ⊢
        simpa [hcp] using ih
      · simp only [List.filter_cons]
        simp only [beq_iff_eq, hdp, if_neg, ite_false]
        rw [ih]
        simp [List.filter_cons, hdp]
    · rw [insertClue, if_neg hlt]

/-- Stability of the sort: each position class of the sorted list is the
position class of the input, in input order. -/
theorem sortClues_filter (l : List ClueRecord) (p : Nat) :
    (sortClues l).filter (fun x => x.position == p)
      = l.filter (fun x => x.position == p) := by
  induction l with
  | nil => rfl
  | cons c cs ih =>
    rw [sortClues, insertClue_filter, List.filter_cons, List.filter_cons, ih]

/-- C6: the built clue sequence is the union of the across and down clue
records sorted ascending by position, and within any one position the
across clues precede the down clues (each in original order), because the
across list is concatenated first and the sort is stable. -/
theorem clue_order (across down : List ClueRecord) :
    (sortClues (across ++ down)).Perm (across ++ down)
    ∧ (sortClues (across ++ down)).Pairwise (fun a b => a.position ≤ b.position)
    ∧ ∀ p : Nat, (sortClues (across ++ down)).filter (fun x => x.position == p)
        = across.filter (fun x => x.position == p)
          ++ down.filter (fun x => x.position == p) := by
  refine ⟨sortClues_perm _, sortClues_pairwise _, fun p => ?_⟩
  rw [sortClues_filter, List.filter_append]

/-! ## C9: to_puzzle before extraction -/

/-- C9: calling `to_puzzle` on a `Crossword` whose `crossword_data`
attribute was never assigned (no successful `extract_crossword`) raises the
`RuntimeError` "No crossword data available", producing no puzzle. -/
theorem to_puzzle_no_data (ct : CrosswordType) (d : YMD) (log : List ConvRec) :
    to_puzzle ⟨ct, d, none⟩ log = .error .noData := rfl

/-! ## C5: validation of date and type -/

/-- C5 fails on the code: a record whose type matches the request
case-insensitively but not exactly ("Cryptic" for a cryptic request, the
other fields fully valid) is rejected by the type assertion, whereas the
claim says it passes. -/
theorem mixed_case_type_fails :
    to_puzzle ⟨.cryptic, ⟨2024, 4, 3⟩,
        some (some ⟨"2024-04-03".toList, "Cryptic".toList, "DA".toList,
          [['A']], [], [], [], []⟩)⟩ []
      = .error .assertionError := by decide

/-- C5 amended: validation fails exactly when the record's date string
differs from the requested date in ISO form, or the record's type string
differs from the requested type's value uppercased (an exact comparison:
the record's type must already be upper case, so a mixed-case record type
is a validation failure). -/
theorem to_puzzle_validation_iff (ct : CrosswordType) (d : YMD) (rec : RawRecord)
    (log : List ConvRec) :
    to_puzzle ⟨ct, d, some (some rec)⟩ log = .error .assertionError
      ↔ (rec.date ≠ isoformat d ∨ pyUpper ct.value ≠ rec.type) := by
  by_cases h1 : rec.date = isoformat d
  · by_cases h2 : pyUpper ct.value = rec.type
    · cases hg : rec.grid with
      | nil => simp [to_puzzle, h1, h2, hg]
      | cons r0 rest => simp [to_puzzle, h1, h2, hg]
    · simp [to_puzzle, h1, h2]
  · simp [to_puzzle, h1]

/-- Witness for C5's amended equivalence: a record with type "QUICK" under
a cryptic request is a validation failure. -/
theorem to_puzzle_validation_iff_witness :
    to_puzzle ⟨.cryptic, ⟨2024, 4, 3⟩,
        some (some ⟨"2024-04-03".toList, "QUICK".toList, "DA".toList,
          [['A']], [], [], [], []⟩)⟩ []
      = .error .assertionError :=
  (to_puzzle_validation_iff .cryptic ⟨2024, 4, 3⟩
    ⟨"2024-04-03".toList, "QUICK".toList, "DA".toList, [['A']], [], [], [], []⟩
    []).mpr (Or.inr (by decide))

/-! ## C1: grid shape and the solution-length invariant -/

/-- C1 fails on the code: a record whose grid rows have unequal lengths is
built successfully instead of failing; the returned model has 3 solution
cells while width * height = 4. -/
theorem ragged_grid_builds :
    ((to_puzzle ⟨.cryptic, ⟨2024, 4, 3⟩,
        some (some ⟨"2024-04-03".toList, "CRYPTIC".toList, "DA".toList,
          [['A', 'B'], ['C']], [], [], [], []⟩)⟩ []).toOption.map
      (fun pr => (pr.1.solution.length, pr.1.width * pr.1.height)))
      = some (3, 4) := by decide

/-- Sum of row lengths when all rows have the same length. -/
theorem sum_map_length_const {α : Type} (w : Nat) (l : List (List α))
    (h : ∀ r ∈ l, r.length = w) : (l.map List.length).sum = w * l.length := by
  induction l with
  | nil => simp
  | cons r rs ih =>
    have hr := h r (List.mem_cons_self r rs)
    have hrs := ih (fun x hx => h x (List.mem_cons_of_mem r hx))
    rw [List.map_cons, List.sum_cons, hr, hrs, List.length_cons, Nat.mul_succ]
    exact Nat.add_comm w (w * rs.length)

/-- C1 amended: `to_puzzle` performs no row-length validation.  Every model
it returns has `len(solution)` equal to the total number of grid cells and
`height` equal to the number of rows, so `len(solution) = width * height`
holds exactly for those successful builds whose rows all have the first
row's length (`width`); ragged grids also build, violating the invariant. -/
theorem solution_length_eq (cw : Crossword) (rec : RawRecord) (log : List ConvRec)
    (p : Puzzle) (log2 : List ConvRec)
    (hdata : cw.crossword_data = some (some rec))
    (hok : to_puzzle cw log = .ok (p, log2)) :
    p.solution.length = (rec.grid.map List.length).sum
    ∧ p.height = rec.grid.length
    ∧ ((∀ row ∈ rec.grid, row.length = p.width)
        → p.solution.length = p.width * p.height) := by
  unfold to_puzzle at hok
  rw [hdata] at hok
  by_cases h1 : rec.date = isoformat cw.date
  · by_cases h2 : pyUpper cw.crossword_type.value = rec.type
    · cases hg : rec.grid with
      | nil => simp [h1, h2, hg] at hok
      | cons r0 rest =>
        simp only [h1, h2, hg, ne_eq, not_true_eq_false, if_false,
          Except.ok.injEq, Prod.mk.injEq] at hok
        obtain ⟨hp, -⟩ := hok
        subst hp
        refine ⟨by simp [List.length_flatten], rfl, fun hall => ?_⟩
        have hsum := sum_map_length_const r0.length (r0 :: rest) (by simpa using hall)
        simpa [List.length_flatten] using hsum
    · simp [h1, h2] at hok
  · simp [h1] at hok

/-- Well-formed 1×2 record used to witness C1's amended claim. -/
def rec1x2 : RawRecord :=
  ⟨"2024-04-03".toList, "CRYPTIC".toList, "DA".toList, [['A', 'B']], [], [], [], []⟩

/-- Crossword holding `rec1x2`. -/
def cw1x2 : Crossword := ⟨.cryptic, ⟨2024, 4, 3⟩, some (some rec1x2)⟩

/-- The puzzle `to_puzzle` builds from `rec1x2`. -/
def puz1x2 : Puzzle :=
  { copyright := "The Sydney Morning Herald".toList,
    title := "Cryptic, Wednesday, April 03, 2024".toList,
    author := "Created by DA".toList,
    width := 2, height := 1,
    solution := ['A', 'B'], fill := ['-', '-'],
    clues := [], notes := [] }

/-- Witness for C1's amended claim at the well-formed 1×2 grid. -/
theorem solution_length_eq_witness :
    puz1x2.solution.length = (rec1x2.grid.map List.length).sum
    ∧ puz1x2.height = rec1x2.grid.length
    ∧ puz1x2.solution.length = puz1x2.width * puz1x2.height := by
  have h := solution_length_eq cw1x2 rec1x2 [] puz1x2 [] rfl (by decide)
  exact ⟨h.1, h.2.1, h.2.2 (by decide)⟩

/-! ## C3: sanitisation of plain ASCII text -/

/-- Pointwise-identity maps are the identity under `flatMap`. -/
theorem flatMap_id_of {α : Type} (f : α → List α) (t : List α)
    (h : ∀ c ∈ t, f c = [c]) : t.flatMap f = t := by
  induction t with
  | nil => rfl
  | cons c cs ih =>
    rw [List.flatMap_cons, h c (List.mem_cons_self c cs),
      ih (fun x hx => h x (List.mem_cons_of_mem c hx))]
    rfl

/-- The markup model is the identity on text with no `<` and no `&`. -/
theorem html2textGo_id (fuel : Nat) : ∀ t : List Char, t.length ≤ fuel →
    '<' ∉ t → '&' ∉ t → html2textGo fuel t = t := by
  induction fuel with
  | zero =>
    intro t ht _ _
    rw [List.length_eq_zero.mp (Nat.le_zero.mp ht)]
    rfl
  | succ n ih =>
    intro t ht h1 h2
    cases t with
    | nil => rfl
    | cons c cs =>
      have hc1 : c ≠ '<' := fun h => h1 (h ▸ List.mem_cons_self c cs)
      have hc2 : c ≠ '&' := fun h => h2 (h ▸ List.mem_cons_self c cs)
      have hlen : cs.length ≤ n := by
        simpa using Nat.le_of_succ_le_succ (by simpa using ht)
      rw [html2textGo, if_neg hc1, if_neg hc2,
        ih cs hlen (fun h => h1 (List.mem_cons_of_mem c h))
          (fun h => h2 (List.mem_cons_of_mem c h))]

/-- `html2textModel` is the identity on markup-free text. -/
theorem html2textModel_id (t : List Char) (h1 : '<' ∉ t) (h2 : '&' ∉ t) :
    html2textModel t = t :=
  html2textGo_id t.length t (Nat.le_refl _) h1 h2

/-- ASCII characters are not emoji. -/
theorem isEmojiChar_ascii (c : Char) (h : c.toNat < 128) :
    isEmojiChar c = false := by
  simp only [isEmojiChar, Bool.or_eq_false_iff, Bool.and_eq_false_iff]
  constructor
  · left
    simp only [decide_eq_false_iff_not]
    omega
  · left
    simp only [decide_eq_false_iff_not]
    omega

/-- `demojizeModel` is the identity on ASCII text. -/
theorem demojizeModel_ascii (t : List Char) (h : ∀ c ∈ t, c.toNat < 128) :
    demojizeModel t = t := by
  refine flatMap_id_of _ t (fun c hc => ?_)
  rw [isEmojiChar_ascii c (h c hc)]
  rfl

/-- `unidecodeModel` is the identity on ASCII text. -/
theorem unidecodeModel_ascii (t : List Char) (h : ∀ c ∈ t, c.toNat < 128) :
    unidecodeModel t = t := by
  refine flatMap_id_of _ t (fun c hc => ?_)
  rw [unidecodeChar, if_pos (h c hc)]

/-- C3 fails on the code: the ASCII, markup-free, emoji-free string
`" hi"` comes back stripped of its leading blank, and a conversion record
is appended. -/
theorem sanitize_strips_leading_space :
    (sanitize_for_latin1 (' ' :: 'h' :: 'i' :: []) ('c' :: []) []).1
        ≠ ' ' :: 'h' :: 'i' :: []
    ∧ (sanitize_for_latin1 (' ' :: 'h' :: 'i' :: []) ('c' :: []) []).2 ≠ [] := by
  decide

/-- C3 amended: for every string of ASCII characters with no HTML markup
(no `<` and no `&`), no emoji, and no leading or trailing whitespace (it
equals its own strip), `_sanitize_for_latin1` returns the string unchanged
and appends no conversion record. -/
theorem sanitize_ascii_id (text ctx : List Char) (log : List ConvRec)
    (hascii : ∀ c ∈ text, c.toNat < 128)
    (hlt : '<' ∉ text) (hamp : '&' ∉ text)
    (hstrip : pyStrip text = text) :
    sanitize_for_latin1 text ctx log = (text, log) := by
  by_cases hnil : text = []
  · rw [hnil]
    rfl
  · unfold sanitize_for_latin1
    rw [if_neg hnil, html2textModel_id text hlt hamp,
      demojizeModel_ascii text hascii, unidecodeModel_ascii text hascii, hstrip]
    simp

/-- Witness for C3's amended claim at the plain string `"hi"`. -/
theorem sanitize_ascii_id_witness :
    sanitize_for_latin1 ('h' :: 'i' :: []) ('c' :: []) [] = ('h' :: 'i' :: [], []) :=
  sanitize_ascii_id _ _ _ (by decide) (by decide) (by decide) (by decide)

/-! ## C8: flushing the conversion log -/

/-- C8: flushing an empty accumulator writes nothing and leaves the state
unchanged; flushing a non-empty one appends a timestamped header plus one
line per record and clears the accumulator; an immediately repeated flush
is a no-op. -/
theorem write_conversion_log_spec (st : LogState) (ts ts2 : List Char) :
    write_conversion_log ts st
      = (if st.conversion_log = [] then st
         else ⟨[], st.fileLines
            ++ [] :: headerLine ts :: st.conversion_log.map recordLine⟩)
    ∧ (st.conversion_log.map recordLine).length = st.conversion_log.length
    ∧ write_conversion_log ts2 (write_conversion_log ts st)
        = write_conversion_log ts st := by
  refine ⟨rfl, List.length_map .., ?_⟩
  by_cases h : st.conversion_log = []
  · simp [write_conversion_log, h]
  · simp [write_conversion_log, h]

/-! ## C2: the unescaping step -/

/-- Decoding a plain (non-backslash) byte. -/
theorem uDecode_lit (b : Nat) (hb : ¬ b = 92) (r : List Nat) :
    uDecode (b :: r) = (uDecode r).map (fun l => b :: l) := by
  rw [uDecode.eq_def]
  simp [hb]

/-- Decoding `\"`. -/
theorem uDecode_quote (r : List Nat) :
    uDecode (92 :: 34 :: r) = (uDecode r).map (fun l => 34 :: l) := by
  rw [uDecode.eq_def]
  simp

/-- Decoding `\\`. -/
theorem uDecode_backslash (r : List Nat) :
    uDecode (92 :: 92 :: r) = (uDecode r).map (fun l => 92 :: l) := by
  rw [uDecode.eq_def]
  simp

/-- Decoding `\uXXXX`. -/
theorem uDecode_u (h3 h2 h1 h0 x3 x2 x1 x0 : Nat) (r : List Nat)
    (e3 : hexVal h3 = some x3) (e2 : hexVal h2 = some x2)
    (e1 : hexVal h1 = some x1) (e0 : hexVal h0 = some x0) :
    uDecode (92 :: 117 :: h3 :: h2 :: h1 :: h0 :: r)
      = (uDecode r).map (fun l => (4096 * x3 + 256 * x2 + 16 * x1 + x0) :: l) := by
  rw [uDecode.eq_def]
  simp [e3, e2, e1, e0]

/-- Hex digits round-trip through `hexVal`. -/
theorem hexVal_hexDigit (k : Nat) (h : k < 16) : hexVal (hexDigit k) = some k := by
  unfold hexVal hexDigit
  by_cases h10 : k < 10
  · rw [if_pos h10, if_pos (by omega : 48 ≤ 48 + k ∧ 48 + k ≤ 57)]
    rw [Nat.add_sub_cancel_left]
  · rw [if_neg h10, if_neg (by omega : ¬ (48 ≤ 87 + k ∧ 87 + k ≤ 57)),
      if_pos (by omega : 97 ≤ 87 + k ∧ 87 + k ≤ 102)]
    congr 1
    omega

/-- Hex digits are ASCII. -/
theorem hexDigit_lt (k : Nat) (h : k < 16) : hexDigit k < 128 := by
  unfold hexDigit
  split <;> omega

/-- The ASCII-only encoder produces only bytes below 128. -/
theorem jsEscapeAscii_ascii (J : List Nat) : ∀ b ∈ jsEscapeAscii J, b < 128 := by
  intro b hb
  rcases List.mem_flatMap.mp hb with ⟨c, _, hbc⟩
  unfold jsEscapeAsciiChar at hbc
  split at hbc
  · rcases List.mem_cons.mp hbc with h | h
    · omega
    · rcases List.mem_singleton.mp h with h
      omega
  split at hbc
  · rcases List.mem_cons.mp hbc with h | h
    · omega
    · rcases List.mem_singleton.mp h with h
      omega
  split at hbc
  · rcases List.mem_singleton.mp hbc with h
    omega
  · rcases List.mem_cons.mp hbc with h | hbc2
    · omega
    rcases List.mem_cons.mp hbc2 with h | hbc3
    · omega
    simp only [toHex4, List.mem_cons, List.not_mem_nil, or_false] at hbc3
    rcases hbc3 with h | h | h | h <;>
      · rw [h]
        exact hexDigit_lt _ (Nat.mod_lt _ (by omega))

/-- UTF-8 is the identity on ASCII byte sequences. -/
theorem utf8Encode_ascii (l : List Nat) (h : ∀ b ∈ l, b < 128) :
    utf8Encode l = l := by
  refine flatMap_id_of _ l (fun b hb => ?_)
  rw [utf8EncodeChar, if_pos (h b hb)]

/-- Decoding one escaped character prepends exactly that character. -/
theorem uDecode_escChar (c : Nat) (hc : c < 65536) (r : List Nat) :
    uDecode (jsEscapeAsciiChar c ++ r) = (uDecode r).map (fun l => c :: l) := by
  unfold jsEscapeAsciiChar
  by_cases h34 : c = 34
  · rw [if_pos h34, h34]
    exact uDecode_quote r
  rw [if_neg h34]
  by_cases h92 : c = 92
  · rw [if_pos h92, h92]
    exact uDecode_backslash r
  rw [if_neg h92]
  by_cases hpr : 32 ≤ c ∧ c < 127
  · rw [if_pos hpr]
    exact uDecode_lit c h92 r
  · rw [if_neg hpr]
    rw [show (92 :: 117 :: toHex4 c) ++ r
        = 92 :: 117 :: hexDigit (c / 4096 % 16) :: hexDigit (c / 256 % 16)
          :: hexDigit (c / 16 % 16) :: hexDigit (c % 16) :: r from rfl]
    rw [uDecode_u _ _ _ _ _ _ _ _ r
      (hexVal_hexDigit _ (Nat.mod_lt _ (by omega)))
      (hexVal_hexDigit _ (Nat.mod_lt _ (by omega)))
      (hexVal_hexDigit _ (Nat.mod_lt _ (by omega)))
      (hexVal_hexDigit _ (Nat.mod_lt _ (by omega)))]
    have hv : 4096 * (c / 4096 % 16) + 256 * (c / 256 % 16)
        + 16 * (c / 16 % 16) + c % 16 = c := by omega
    rw [hv]

/-- The decoder inverts the ASCII-only encoder. -/
theorem uDecode_jsEscapeAscii (J : List Nat) (h : ∀ c ∈ J, c < 65536) :
    uDecode (jsEscapeAscii J) = some J := by
  induction J with
  | nil => rfl
  | cons c cs ih =>
    have hc := h c (List.mem_cons_self c cs)
    have hcs := ih (fun x hx => h x (List.mem_cons_of_mem c hx))
    rw [show jsEscapeAscii (c :: cs) = jsEscapeAsciiChar c ++ jsEscapeAscii cs from rfl,
      uDecode_escChar c hc, hcs]
    rfl

/-- C2 fails on the code: the one-character JSON text `é` (U+00E9), which
the claim's escaping leaves literal, is mangled by the unescaping step into
the two characters `Ã©` (U+00C3 U+00A9) — the UTF-8 bytes of `é` read back
as Latin-1 — instead of being recovered exactly. -/
theorem unescape_literal_mojibake :
    unescapeStep (jsEscapeLiteral [233]) = some [195, 169]
    ∧ unescapeStep (jsEscapeLiteral [233]) ≠ some [233] := by decide

/-- C2 amended: if the JSON document is escaped with `\"`, `\\`, and a
`\uXXXX` escape for every non-printable or non-ASCII character (all code
points below 0x10000), so that the escaped text is pure ASCII, then the
extractor's unescaping step recovers exactly the original document. -/
theorem unescape_ascii_roundtrip (J : List Nat) (h : ∀ c ∈ J, c < 65536) :
    unescapeStep (jsEscapeAscii J) = some J := by
  unfold unescapeStep
  rw [utf8Encode_ascii _ (jsEscapeAscii_ascii J), uDecode_jsEscapeAscii J h]

/-- Witness for C2's amended claim on a document containing a quote, a
backslash, a newline, `é` and `€`. -/
theorem unescape_ascii_roundtrip_witness :
    unescapeStep (jsEscapeAscii [104, 34, 92, 10, 233, 8364])
      = some [104, 34, 92, 10, 233, 8364] :=
  unescape_ascii_roundtrip _ (by decide)

end Decryptic
